import Mathlib

/-!
Shallow embedding of the pairs-trading dashboard (`app.py`) and the tick
ingestor (`ingest.py`): tick-store reads, two-symbol alignment, bucket
resampling, the rolling analytics and the z-score alert check.

Modelling conventions: timestamps are natural numbers (epoch units at the
store's resolution), prices and thresholds are rationals, and a pandas/NumPy
NaN is modelled by `Option` with `none` standing for NaN.  All list and
Finset operations are exact counterparts of the pandas calls they embed,
noted at each definition.
-/

namespace PairsApp

/-- One row of the `ticks` table as read by `load_data`
(`SELECT ts, symbol, price FROM ticks`; the `size` column is not selected). -/
structure Tick where
  ts : ℕ
  symbol : String
  price : ℚ
  deriving DecidableEq, Repr

/-- The states the SQLite database can be in when the dashboard queries it:
the file does not exist, the file exists but the `ticks` table was never
created (`pd.read_sql_query` raises `pandas.errors.DatabaseError`), or the
table exists and holds `rows`. -/
inductive DBState where
  | absent
  | uninitialized
  | ready (rows : List Tick)
  deriving DecidableEq, Repr

/-- Embeds `pd.read_sql_query("SELECT ts, symbol, price FROM ticks", conn)`:
errors when the table is missing (`sqlite3.connect` on a fresh path creates
an empty database, so the query also fails in the `absent` state), returns
the rows otherwise. -/
def read_sql_ticks : DBState → Except String (List Tick)
  | DBState.absent => Except.error "DatabaseError"
  | DBState.uninitialized => Except.error "DatabaseError"
  | DBState.ready rows => Except.ok rows

/-- Embeds `load_data` from `app.py`: returns an empty frame when the database file
does not exist, when the `ticks` table is not ready (the `DatabaseError` is
caught), or when the query returns zero rows; otherwise returns the rows.
Totality of this function is the embedding of "never raises". -/
def load_data : DBState → List Tick
  | DBState.absent => []
  | db =>
    match read_sql_ticks db with
    | Except.error _ => []
    | Except.ok rows => if rows.isEmpty then [] else rows

/-- Note that `normalize_trade_data` in `ingest.py` runs
`datetime.fromtimestamp(data['T'] / 1000).isoformat()`.  With no `tz`
argument, `datetime.fromtimestamp` yields the HOST-LOCAL civil time, i.e.
the UTC instant shifted by the host's UTC offset.  We model the stored
timestamp as civil seconds since the epoch: `T/1000` plus the host offset. -/
def storedTimestampSeconds (T : ℤ) (tzOffsetSeconds : ℤ) : ℚ :=
  (T : ℚ) / 1000 + (tzOffsetSeconds : ℚ)

/-- The UTC instant (seconds since the epoch) named by an epoch-milliseconds
trade time `T`, as the spec's data model describes the stored timestamp. -/
def utcInstantSeconds (T : ℤ) : ℚ :=
  (T : ℚ) / 1000

/-- Embeds `normalize_trade_data(symbol, data)`: the tuple
`(trade_time, symbol, float(data['p']), float(data['q']))` inserted into the
`ticks` table, with the timestamp as stored by the code (host-local civil
time, parametrised by the host's UTC offset in seconds). -/
def normalize_trade_data (symbol : String) (T : ℤ) (p q : ℚ)
    (tzOffsetSeconds : ℤ) : ℚ × String × ℚ × ℚ :=
  (storedTimestampSeconds T tzOffsetSeconds, symbol, p, q)

/-- The alert check in `app.py`: `abs(current_z) > alert_z_score`. -/
def evaluate (z t : ℚ) : Bool :=
  decide (|z| > t)

/-- A per-symbol price series indexed by timestamp, as produced by
`df[df['symbol'] == sym].set_index('ts')['price']`. -/
abbrev Series := List (ℕ × ℚ)

/-- Embeds `df[df['symbol'] == sym].set_index('ts')['price']` in `get_pair_data`. -/
def symSeries (df : List Tick) (sym : String) : Series :=
  (df.filter (fun t => t.symbol == sym)).map (fun t => (t.ts, t.price))

/-- All prices a series holds at index label `t` (several when the raw
index has duplicate timestamps). -/
def pricesAt (s : Series) (t : ℕ) : List ℚ :=
  (s.filter (fun r => r.1 == t)).map Prod.snd

/-- Arithmetic mean, `sum / len` (pandas `.mean()`). -/
def mean (xs : List ℚ) : ℚ :=
  xs.sum / (xs.length : ℚ)

/-- One copy of each element of a list of timestamps (the set of index
labels). -/
def distinctTimes : List ℕ → List ℕ
  | [] => []
  | t :: rest => if t ∈ rest then distinctTimes rest else t :: distinctTimes rest

/-- The distinct timestamps of a list, in ascending order — the index a
pandas groupby or index-union produces. -/
def sortedTimes (l : List ℕ) : List ℕ :=
  List.insertionSort (· ≤ ·) (distinctTimes l)

/-- Embeds `series.groupby(series.index).mean()`: one row per distinct timestamp,
in ascending timestamp order, carrying the mean of the prices recorded at
that timestamp. -/
def groupMean (s : Series) : Series :=
  (sortedTimes (s.map Prod.fst)).map (fun u => (u, mean (pricesAt s u)))

/-- The duplicate-handling branch of `get_pair_data`: pandas
`index.is_unique` decides whether the series is kept as-is or grouped by
timestamp with mean aggregation. -/
def dedupBranch (s : Series) : Series :=
  if (s.map Prod.fst).Nodup then s else groupMean s

/-- The greatest element of a list of timestamps, `none` when empty. -/
def maxTime : List ℕ → Option ℕ
  | [] => none
  | a :: rest =>
    match maxTime rest with
    | none => some a
    | some b => some (max a b)

/-- The value the forward-filled (`ffill`) column holds at row label `t`
after `pd.concat` aligns the two series on the sorted union of their
indexes: the series' value at its greatest observation time `≤ t`, or
NaN (`none`) when the series has not yet reported by `t`.  (Looking the
value up as the mean of the prices at that label is exact: both branches of
`dedupBranch` produce a unique-label series, where the mean of the single
price is the price itself.) -/
def ffillAt (s : Series) (t : ℕ) : Option ℚ :=
  (maxTime ((s.map Prod.fst).filter (fun u => u ≤ t))).map
    (fun u => mean (pricesAt s u))

/-- One row of the aligned two-symbol frame. -/
structure PairPoint where
  ts : ℕ
  btc : ℚ
  eth : ℚ
  deriving DecidableEq, Repr

/-- Embeds `pd.concat([btc, eth], axis=1).ffill().dropna()`: rows on the sorted
union of the two indexes, each column forward-filled, rows with a NaN in
either column dropped. -/
def pairJoin (btc eth : Series) : List PairPoint :=
  (sortedTimes (btc.map Prod.fst ++ eth.map Prod.fst)).filterMap (fun t =>
    match ffillAt btc t, ffillAt eth t with
    | some b, some e => some (PairPoint.mk t b e)
    | _, _ => none)

/-- Embeds `get_pair_data` from `app.py`: filter the snapshot to the two tracked
symbols, deduplicate identical timestamps by mean, return empty when either
symbol has no ticks, otherwise align the two series. -/
def get_pair_data (df : List Tick) : List PairPoint :=
  if (dedupBranch (symSeries df "btcusdt")).isEmpty
      || (dedupBranch (symSeries df "ethusdt")).isEmpty then []
  else
    pairJoin (dedupBranch (symSeries df "btcusdt"))
      (dedupBranch (symSeries df "ethusdt"))

/-- The left edge of the fixed-width resampling bucket that timestamp `t`
falls into, for bucket width `d`. -/
def bucket (d t : ℕ) : ℕ :=
  d * (t / d)

/-- The aligned rows falling into the bucket with left edge `b` (the pair
frame is in ascending timestamp order, so the positionally last row is the
latest row of the bucket). -/
def bucketRows (p : List PairPoint) (d b : ℕ) : List PairPoint :=
  p.filter (fun r => bucket d r.ts == b)

/-- Embeds `pair_df.resample(timeframe).last().dropna()`: one row per bucket that
contains at least one aligned row, labelled by the bucket's left edge and
carrying the last observed value in the bucket; empty buckets produce NaN
rows under `.last()` and are removed by `.dropna()`. -/
def resample (p : List PairPoint) (d : ℕ) : List PairPoint :=
  (sortedTimes (p.map (fun r => bucket d r.ts))).filterMap (fun b =>
    ((bucketRows p d b).getLast?).map (fun r => PairPoint.mk b r.btc r.eth))

/-- The slope coefficient on `btc_price` of
`sm.OLS(eth, sm.add_constant(btc)).fit()`: for a simple regression with
intercept the normal equations give
`slope = Σ (x-x̄)(y-ȳ) / Σ (x-x̄)²` (nonsingular design assumed, i.e. the
regressor is not constant). -/
def olsSlope (x y : List ℚ) : ℚ :=
  (List.zipWith (fun a b => (a - mean x) * (b - mean y)) x y).sum /
    ((x.map (fun a => (a - mean x) ^ 2)).sum)

/-- The spread column of `calculate_analytics`:
`eth_price - hedge_ratio * btc_price`, pointwise, with the single hedge
ratio fitted on the full resampled series. -/
def spreadOf (p : List PairPoint) : List ℚ :=
  p.map (fun r =>
    r.eth - olsSlope (p.map PairPoint.btc) (p.map PairPoint.eth) * r.btc)

/-- The trailing window `s[i-w+1..i]` that pandas `rolling(window=w)`
aggregates at position `i`. -/
def windowSlice (s : List ℚ) (w i : ℕ) : List ℚ :=
  (s.take (i + 1)).drop (i + 1 - w)

/-- Embeds `spread.rolling(window=w).mean()` at position `i`: NaN (`none`) while
fewer than `w` observations are available, the window mean afterwards. -/
def rollingMean (s : List ℚ) (w i : ℕ) : Option ℚ :=
  if i + 1 < w then none else some (mean (windowSlice s w i))

/-- Sample variance with `ddof = 1` (the pandas `.std()` default, squared):
`Σ (x - x̄)² / (len - 1)`. -/
def sampleVar (xs : List ℚ) : ℚ :=
  (xs.map (fun x => (x - mean xs) ^ 2)).sum / ((xs.length : ℚ) - 1)

/-- The square of `spread.rolling(window=w).std()` at position `i`: NaN
(`none`) on the first `w - 1` positions, the window's sample variance
afterwards. -/
def rollingVar (s : List ℚ) (w i : ℕ) : Option ℚ :=
  if i + 1 < w then none else some (sampleVar (windowSlice s w i))

/-- The z-score column `(spread - spread_mean) / spread_std` at position
`i`.  While the rolling statistics are NaN the quotient is NaN; when the
rolling standard deviation is zero the float division is `0.0 / 0.0 = NaN`
as well (a zero-variance window forces `spread[i] = mean`), so both cases
are `none`.  Otherwise the value is the claim's quotient, with
`std = sqrt(variance)`. -/
noncomputable def zScore (s : List ℚ) (w i : ℕ) : Option ℝ :=
  match rollingMean s w i, rollingVar s w i with
  | some m, some v =>
    if v = 0 then none
    else some (((s.getD i 0 - m : ℚ) : ℝ) / Real.sqrt ((v : ℚ) : ℝ))
  | _, _ => none

/-- Embeds `resampled_df['z_score'].iloc[-1]`, the latest z-score fed to the alert
check. -/
noncomputable def currentZ (res : List PairPoint) (w : ℕ) : Option ℝ :=
  zScore (spreadOf res) w (res.length - 1)

/-- The alert condition `abs(current_z) > alert_z_score` as evaluated by the
dashboard on the (possibly NaN) latest z-score: every IEEE comparison with
NaN is false, so a NaN current z-score never fires the alert. -/
def breachCheck : Option ℝ → ℝ → Prop
  | none, _ => False
  | some v, t => |v| > t

/-- The outcome of one dashboard refresh in `app.py`'s main script: each
`st.warning` + `st.stop()` guard is a distinct early exit, reached before
`calculate_analytics` runs. -/
inductive RunResult where
  | noData
  | waitingPair
  | insufficientData
  | ready (res : List PairPoint)
  deriving DecidableEq, Repr

/-- The guard chain of `app.py`'s main script: stop when the store snapshot
is empty, stop when the aligned pair frame is empty, stop when the
resampled frame is empty or shorter than the rolling window, and only then
hand the resampled frame to `calculate_analytics`. -/
def runPipeline (df : List Tick) (d w : ℕ) : RunResult :=
  if df.isEmpty then RunResult.noData
  else if (get_pair_data df).isEmpty then RunResult.waitingPair
  else if (resample (get_pair_data df) d).isEmpty
      ∨ (resample (get_pair_data df) d).length < w then
    RunResult.insufficientData
  else RunResult.ready (resample (get_pair_data df) d)

/-- A store snapshot on which the fitted spread is constant over the
trailing window: the last three aligned points have constant prices for
both symbols, so the spread is constant there whatever the hedge ratio.
Exact arithmetic gives hedge ratio `-3` and spread `[13, 13, 11, 11, 11]`. -/
def degTicks : List Tick :=
  [⟨0, "btcusdt", 1⟩, ⟨0, "ethusdt", 10⟩,
   ⟨60, "btcusdt", 3⟩, ⟨60, "ethusdt", 4⟩,
   ⟨120, "btcusdt", 2⟩, ⟨120, "ethusdt", 5⟩,
   ⟨180, "btcusdt", 2⟩, ⟨180, "ethusdt", 5⟩,
   ⟨240, "btcusdt", 2⟩, ⟨240, "ethusdt", 5⟩]

/-- The resampled frame the pipeline computes from `degTicks` at a 60-unit
bucket width. -/
def degRes : List PairPoint :=
  resample (get_pair_data degTicks) 60

/-- A store snapshot whose aligned rows leave the middle resampling bucket
empty: both symbols tick at 0 and at 120 only, so with 60-unit buckets the
bucket at 60 has no rows. -/
def gapTicks : List Tick :=
  [⟨0, "btcusdt", 1⟩, ⟨0, "ethusdt", 2⟩,
   ⟨120, "btcusdt", 3⟩, ⟨120, "ethusdt", 4⟩]

end PairsApp

namespace PairsApp

/-! ### Helper lemmas about the list primitives of the embedding -/

theorem mem_distinctTimes {l : List ℕ} {a : ℕ} : a ∈ distinctTimes l ↔ a ∈ l := by
  induction l with
  | nil => simp [distinctTimes]
  | cons t rest ih =>
    by_cases h : t ∈ rest
    · rw [distinctTimes, if_pos h, ih, List.mem_cons]
      constructor
      · exact Or.inr
      · rintro (rfl | ha)
        · exact h
        · exact ha
    · rw [distinctTimes, if_neg h, List.mem_cons, List.mem_cons, ih]

theorem nodup_distinctTimes (l : List ℕ) : (distinctTimes l).Nodup := by
  induction l with
  | nil => simp [distinctTimes]
  | cons t rest ih =>
    by_cases h : t ∈ rest
    · rw [distinctTimes, if_pos h]
      exact ih
    · rw [distinctTimes, if_neg h]
      exact List.Nodup.cons (fun hmem => h (mem_distinctTimes.mp hmem)) ih

theorem mem_sortedTimes {l : List ℕ} {a : ℕ} : a ∈ sortedTimes l ↔ a ∈ l := by
  rw [sortedTimes, (List.perm_insertionSort _ _).mem_iff, mem_distinctTimes]

theorem nodup_sortedTimes (l : List ℕ) : (sortedTimes l).Nodup := by
  rw [sortedTimes]
  exact ((List.perm_insertionSort _ _).nodup_iff).mpr (nodup_distinctTimes l)

theorem sortedTimes_sorted_lt (l : List ℕ) :
    List.Sorted (· < ·) (sortedTimes l) :=
  (List.sorted_insertionSort _ _).lt_of_le (nodup_sortedTimes l)

theorem maxTime_mem : ∀ {l : List ℕ} {m : ℕ}, maxTime l = some m → m ∈ l := by
  intro l
  induction l with
  | nil =>
    intro m h
    simp [maxTime] at h
  | cons a rest ih =>
    intro m h
    rw [maxTime] at h
    cases hr : maxTime rest with
    | none =>
      rw [hr] at h
      simp only [Option.some.injEq] at h
      subst h
      exact List.mem_cons_self a rest
    | some b =>
      rw [hr] at h
      simp only [Option.some.injEq] at h
      subst h
      rcases max_choice a b with hc | hc
      · rw [hc]
        exact List.mem_cons_self a rest
      · rw [hc]
        exact List.mem_cons_of_mem a (ih hr)

theorem filter_beq_singleton :
    ∀ {l : List ℕ} {t : ℕ}, l.Nodup → t ∈ l →
      l.filter (fun u => u == t) = [t] := by
  intro l
  induction l with
  | nil =>
    intro t _ ht
    cases ht
  | cons a rest ih =>
    intro t hnd ht
    rcases List.nodup_cons.mp hnd with ⟨ha, hnd'⟩
    rcases List.mem_cons.mp ht with rfl | htr
    · rw [List.filter_cons, if_pos (by simp)]
      have : rest.filter (fun u => u == t) = [] := by
        rw [List.filter_eq_nil_iff]
        intro b hb
        intro hbt
        rw [beq_iff_eq] at hbt
        exact ha (hbt ▸ hb)
      rw [this]
    · have hat : ¬ (a == t) = true := by
        simp only [beq_iff_eq]
        intro hat
        exact ha (hat ▸ htr)
      rw [List.filter_cons, if_neg hat]
      exact ih hnd' htr

theorem count_fst_eq_filter_length (s : Series) (t : ℕ) :
    (s.map Prod.fst).count t = (s.filter (fun r => r.1 == t)).length := by
  induction s with
  | nil => simp
  | cons r rest ih =>
    by_cases hr : r.1 = t
    · simp [List.count_cons, List.filter_cons, hr, ih]
    · simp [List.count_cons, List.filter_cons, hr, ih]

theorem mem_fst_dedupBranch {s : Series} {u : ℕ} :
    u ∈ (dedupBranch s).map Prod.fst ↔ u ∈ s.map Prod.fst := by
  rw [dedupBranch]
  split_ifs with h
  · exact Iff.rfl
  · rw [groupMean, List.map_map]
    have : (Prod.fst ∘ fun u => (u, mean (pricesAt s u))) = id := rfl
    rw [this, List.map_id]
    exact mem_sortedTimes

theorem ffillAt_some_exists {s : Series} {t : ℕ} {v : ℚ}
    (h : ffillAt s t = some v) : ∃ u ∈ s.map Prod.fst, u ≤ t := by
  rw [ffillAt] at h
  rcases Option.map_eq_some'.mp h with ⟨u, hu, _⟩
  have hmem := maxTime_mem hu
  rcases List.mem_filter.mp hmem with ⟨humem, hule⟩
  exact ⟨u, humem, by simpa using hule⟩

theorem filterMap_lastRow_ts (p : List PairPoint) (d : ℕ) :
    ∀ L : List ℕ, (∀ b ∈ L, bucketRows p d b ≠ []) →
      (L.filterMap (fun b =>
        ((bucketRows p d b).getLast?).map
          (fun r => PairPoint.mk b r.btc r.eth))).map PairPoint.ts = L := by
  intro L
  induction L with
  | nil =>
    intro _
    simp
  | cons b L ih =>
    intro hmem
    have hb := hmem b (List.mem_cons_self b L)
    obtain ⟨r, hr⟩ :=
      Option.isSome_iff_exists.mp (List.getLast?_isSome.mpr hb)
    rw [List.filterMap_cons, hr]
    simp only [Option.map_some']
    rw [List.map_cons, ih (fun x hx => hmem x (List.mem_cons_of_mem b hx))]

theorem resample_map_ts (p : List PairPoint) (d : ℕ) :
    (resample p d).map PairPoint.ts = sortedTimes (p.map (fun r => bucket d r.ts)) := by
  rw [resample]
  apply filterMap_lastRow_ts
  intro b hb
  rw [mem_sortedTimes] at hb
  obtain ⟨r, hr, hbr⟩ := List.mem_map.mp hb
  intro hnil
  have hrin : r ∈ bucketRows p d b := by
    rw [bucketRows, List.mem_filter]
    exact ⟨hr, by simp [hbr]⟩
  rw [hnil] at hrin
  exact absurd hrin (List.not_mem_nil r)

/-! ### Concrete evaluations of the pipeline used by witnesses and
counterexamples -/

theorem degTicks_pair :
    get_pair_data degTicks =
      [⟨0, 1, 10⟩, ⟨60, 3, 4⟩, ⟨120, 2, 5⟩, ⟨180, 2, 5⟩, ⟨240, 2, 5⟩] := by
  norm_num +decide [get_pair_data, symSeries, degTicks, dedupBranch, pairJoin,
    sortedTimes, distinctTimes, List.insertionSort, List.orderedInsert, ffillAt,
    maxTime, pricesAt, mean, List.filter_cons, List.filterMap_cons]

theorem degRes_eval :
    degRes = [⟨0, 1, 10⟩, ⟨60, 3, 4⟩, ⟨120, 2, 5⟩, ⟨180, 2, 5⟩, ⟨240, 2, 5⟩] := by
  rw [degRes, degTicks_pair]
  norm_num +decide [resample, sortedTimes, distinctTimes, List.insertionSort,
    List.orderedInsert, bucket, bucketRows, List.filter_cons, List.filterMap_cons,
    List.getLast?]

theorem degRes_spread : spreadOf degRes = [13, 13, 11, 11, 11] := by
  rw [degRes_eval]
  norm_num [spreadOf, olsSlope, mean]

theorem degRes_rollingVar : rollingVar (spreadOf degRes) 3 4 = some 0 := by
  rw [degRes_spread]
  norm_num [rollingVar, sampleVar, windowSlice, mean]

theorem degRes_rollingMean : rollingMean (spreadOf degRes) 3 4 = some 11 := by
  rw [degRes_spread]
  norm_num [rollingMean, windowSlice, mean]

theorem degRes_zScore : zScore (spreadOf degRes) 3 4 = none := by
  rw [zScore, degRes_rollingVar, degRes_rollingMean]
  simp

theorem degTicks_run : runPipeline degTicks 60 3 = RunResult.ready degRes := by
  rw [runPipeline]
  rw [if_neg (by simp [degTicks])]
  rw [if_neg (by rw [degTicks_pair]; simp)]
  rw [if_neg ?_]
  · rfl
  · rw [show resample (get_pair_data degTicks) 60 = degRes from rfl, degRes_eval]
    simp

theorem gapTicks_pair : get_pair_data gapTicks = [⟨0, 1, 2⟩, ⟨120, 3, 4⟩] := by
  norm_num +decide [get_pair_data, symSeries, gapTicks, dedupBranch, pairJoin,
    sortedTimes, distinctTimes, List.insertionSort, List.orderedInsert, ffillAt,
    maxTime, pricesAt, mean, List.filter_cons, List.filterMap_cons]

theorem gapTicks_resample :
    resample (get_pair_data gapTicks) 60 = [⟨0, 1, 2⟩, ⟨120, 3, 4⟩] := by
  rw [gapTicks_pair]
  norm_num +decide [resample, sortedTimes, distinctTimes, List.insertionSort,
    List.orderedInsert, bucket, bucketRows, List.filter_cons, List.filterMap_cons,
    List.getLast?]

/-- C7: whenever the tick store is queried before it has been initialized or
populated (database file absent, ticks table absent, or zero rows), the read
returns an empty snapshot — and on a populated table it returns exactly the
rows, so the read operation is total (never an exception). -/
theorem load_data_not_yet_available :
    load_data DBState.absent = [] ∧
    load_data DBState.uninitialized = [] ∧
    load_data (DBState.ready []) = [] ∧
    ∀ rows : List Tick, load_data (DBState.ready rows) = rows := by
  refine ⟨rfl, rfl, rfl, ?_⟩
  intro rows
  cases rows with
  | nil => rfl
  | cons r rs => rfl

/-- C5 (code bug): `normalize_trade_data` stores the host-local civil time,
not the UTC instant: for every trade time `T` and host UTC offset `tz` the
stored timestamp is the UTC instant shifted by `tz`; at `T = 0` on a host
with offset +3600 s the stored value is 3600, one hour past the UTC instant
0 that the spec requires. -/
theorem normalize_uses_local_time :
    (∀ T tz : ℤ,
      storedTimestampSeconds T tz = utcInstantSeconds T + (tz : ℚ)) ∧
    storedTimestampSeconds 0 3600 = utcInstantSeconds 0 + 3600 ∧
    (normalize_trade_data "btcusdt" 0 1 1 3600).1 = 3600 ∧
    (normalize_trade_data "btcusdt" 0 1 1 0).1 = 0 := by
  refine ⟨?_, by norm_num [storedTimestampSeconds, utcInstantSeconds], ?_, ?_⟩
  · intro T tz
    simp [storedTimestampSeconds, utcInstantSeconds]
  · norm_num [normalize_trade_data, storedTimestampSeconds]
  · norm_num [normalize_trade_data, storedTimestampSeconds]

/-- C9: the alert evaluation returns `true` exactly when `|z| > t` (strict),
for every `z` and positive threshold `t`; in particular
`evaluate 2.5 2 = true`, `evaluate 1.9 2 = false`, `evaluate (-2.1) 2 = true`. -/
theorem evaluate_breach_spec :
    (∀ z t : ℚ, 0 < t → (evaluate z t = true ↔ |z| > t)) ∧
    evaluate (5 / 2) 2 = true ∧
    evaluate (19 / 10) 2 = false ∧
    evaluate (-21 / 10) 2 = true := by
  refine ⟨?_, ?_, ?_, ?_⟩
  · intro z t _
    simp [evaluate]
  · have h : |(5 / 2 : ℚ)| = 5 / 2 := by
      rw [abs_of_nonneg]
      norm_num
    norm_num [evaluate, h]
  · have h : |(19 / 10 : ℚ)| = 19 / 10 := by
      rw [abs_of_nonneg]
      norm_num
    norm_num [evaluate, h]
  · have h : |(-21 / 10 : ℚ)| = 21 / 10 := by
      rw [abs_of_nonpos]
      · norm_num
      · norm_num
    have h2 : |(21 / 10 : ℚ)| = 21 / 10 := by
      rw [abs_of_nonneg]
      norm_num
    norm_num [evaluate, h, h2]

/-- Witness for `evaluate_breach_spec` at `z = 3`, `t = 1`. -/
theorem evaluate_breach_spec_witness : evaluate 3 1 = true :=
  (evaluate_breach_spec.1 3 1 (by norm_num)).mpr (by norm_num)

/-- C1 (amended): the rolling z-score at index `i` is NaN on the first
`w - 1` indices; at an in-range index `i ≥ w - 1` it is NaN exactly when
the trailing window's sample variance (ddof = 1) is zero, and otherwise it
equals `(spread[i] - mean(window)) / sqrt(sampleVar(window))` where the
window is precisely the `w` entries `spread[i-w+1..i]`. -/
theorem zScore_rolling_spec (s : List ℚ) (w i : ℕ) :
    (i + 1 < w → zScore s w i = none) ∧
    (w ≤ i + 1 → i < s.length →
      ((zScore s w i = none ↔ sampleVar (windowSlice s w i) = 0) ∧
       (sampleVar (windowSlice s w i) ≠ 0 →
          zScore s w i = some (((s.getD i 0 - mean (windowSlice s w i) : ℚ) : ℝ) /
            Real.sqrt ((sampleVar (windowSlice s w i) : ℚ) : ℝ))) ∧
       windowSlice s w i = (List.range w).map (fun j => s.getD (i + 1 - w + j) 0))) := by
  constructor
  · intro h
    simp [zScore, rollingMean, rollingVar, h]
  · intro hw hi
    have hnlt : ¬ i + 1 < w := by omega
    have hm : rollingMean s w i = some (mean (windowSlice s w i)) := by
      simp [rollingMean, hnlt]
    have hv : rollingVar s w i = some (sampleVar (windowSlice s w i)) := by
      simp [rollingVar, hnlt]
    refine ⟨?_, ?_, ?_⟩
    · rw [zScore, hm, hv]
      by_cases h0 : sampleVar (windowSlice s w i) = 0
      · simp [h0]
      · simp [h0]
    · intro h0
      rw [zScore, hm, hv]
      simp [h0]
    · apply List.ext_getElem
      · simp [windowSlice]
        omega
      · intro j hj1 hj2
        have hjw : j < w := by
          have : (windowSlice s w i).length = w := by
            simp [windowSlice]
            omega
          omega
        have hb : i + 1 - w + j < s.length := by omega
        simp only [windowSlice, List.getElem_drop]
        rw [List.getElem_take]
        simp only [List.getElem_map, List.getElem_range]
        rw [List.getD_eq_getElem _ _ hb]

/-- Witness for `zScore_rolling_spec` on the series `[1, 2, 4]` with
window 2 at index 2 (window `[2, 4]`, sample variance 2 ≠ 0). -/
theorem zScore_rolling_spec_witness :
    zScore [1, 2, 4] 2 2 =
      some (((([1, 2, 4] : List ℚ).getD 2 0 -
          mean (windowSlice [1, 2, 4] 2 2) : ℚ) : ℝ) /
        Real.sqrt ((sampleVar (windowSlice [1, 2, 4] 2 2) : ℚ) : ℝ)) :=
  ((zScore_rolling_spec [1, 2, 4] 2 2).2 (by norm_num) (by norm_num)).2.1
    (by norm_num [sampleVar, windowSlice, mean])

/-- C1 counterexample: on the resampled pair series derived from
`degTicks` (spread `[13, 13, 11, 11, 11]`) with window 3, the z-score at
index 4 — inside the series and beyond the first `w - 1 = 2` indices, where
the claim says the z-score is defined — is NaN, because the trailing window
`[11, 11, 11]` has zero sample variance and the float division is
`0.0 / 0.0`. -/
theorem zScore_nan_beyond_first_window_cex :
    (spreadOf degRes).length = 5 ∧ zScore (spreadOf degRes) 3 4 = none := by
  constructor
  · rw [degRes_spread]
    rfl
  · exact degRes_zScore

/-- C3: the dashboard's guard chain refuses to run the analytics on fewer
resampled points than the rolling window: a `ready` result carries exactly
the resampled frame and only when it has at least `w` rows, and whenever
the earlier guards pass but the resampled frame is shorter than `w`, the
run stops in the distinct `insufficientData` state. -/
theorem pipeline_insufficient_guard (df : List Tick) (d w : ℕ) :
    (∀ res, runPipeline df d w = RunResult.ready res →
        res = resample (get_pair_data df) d ∧ w ≤ res.length) ∧
    (df.isEmpty = false → (get_pair_data df).isEmpty = false →
        (resample (get_pair_data df) d).length < w →
        runPipeline df d w = RunResult.insufficientData) := by
  constructor
  · intro res h
    rw [runPipeline] at h
    split_ifs at h with h1 h2 h3
    injection h with h
    subst h
    push_neg at h3
    exact ⟨rfl, h3.2⟩
  · intro h1 h2 h3
    rw [runPipeline, if_neg (by simp [h1]), if_neg (by simp [h2]),
      if_pos (Or.inr h3)]

/-- Witness for `pipeline_insufficient_guard`: `degTicks` resamples to 5
rows, fewer than a window of 10, and the pipeline stops in
`insufficientData`. -/
theorem pipeline_insufficient_guard_witness :
    runPipeline degTicks 60 10 = RunResult.insufficientData :=
  (pipeline_insufficient_guard degTicks 60 10).2
    (by rfl)
    (by rw [degTicks_pair]; rfl)
    (by rw [show resample (get_pair_data degTicks) 60 = degRes from rfl,
          degRes_eval]; norm_num)

/-- C4 (code bug): on `degTicks` — whose spread has zero variance over the
trailing window — the pipeline reaches the `ready` state, the latest
z-score handed to the alert check is NaN, and the alert condition
`abs(current_z) > threshold` evaluates to no-breach on it: the code raises
no distinguishable ComputationUndefined condition and the NaN reaches the
alert evaluation. -/
theorem zero_variance_nan_propagates :
    runPipeline degTicks 60 3 = RunResult.ready degRes ∧
    currentZ degRes 3 = none ∧
    breachCheck (currentZ degRes 3) 2 = False := by
  have hz : currentZ degRes 3 = none := by
    have hlen : degRes.length - 1 = 4 := by
      rw [degRes_eval]
      decide
    rw [currentZ, hlen]
    exact degRes_zScore
  refine ⟨degTicks_run, hz, ?_⟩
  rw [hz]
  rfl

/-- C8 (amended): the resampled series has strictly increasing timestamps,
each aligned to a bucket boundary (divisible by the bucket width); after
`.dropna()` removes empty buckets, consecutive timestamps need not differ
by exactly the interval. -/
theorem resample_sorted_bucket_aligned (p : List PairPoint) (d : ℕ) :
    List.Sorted (· < ·) ((resample p d).map PairPoint.ts) ∧
    ∀ pt ∈ resample p d, d ∣ pt.ts := by
  constructor
  · rw [resample_map_ts]
    exact sortedTimes_sorted_lt _
  · intro pt hpt
    have hts : pt.ts ∈ (resample p d).map PairPoint.ts :=
      List.mem_map_of_mem _ hpt
    rw [resample_map_ts, mem_sortedTimes] at hts
    obtain ⟨r, _, hbr⟩ := List.mem_map.mp hts
    rw [← hbr, bucket]
    exact dvd_mul_right d (r.ts / d)

/-- Witness for `resample_sorted_bucket_aligned`: the bucket-aligned
timestamp 120 of the resampled `gapTicks` frame is divisible by 60. -/
theorem resample_sorted_bucket_aligned_witness :
    (60 : ℕ) ∣ (PairPoint.mk 120 3 4).ts :=
  (resample_sorted_bucket_aligned (get_pair_data gapTicks) 60).2
    (PairPoint.mk 120 3 4) (by rw [gapTicks_resample]; simp)

/-- C8 counterexample: resampling the `gapTicks` pair series with bucket
width 60 yields timestamps `[0, 120]` — the bucket at 60 is empty and
dropped — so consecutive timestamps do not differ by exactly the bucket
interval and the series is not evenly spaced. -/
theorem resample_even_spacing_cex :
    (resample (get_pair_data gapTicks) 60).map PairPoint.ts = [0, 120] ∧
    List.Chain' (fun a b => b = a + 60)
      ((resample (get_pair_data gapTicks) 60).map PairPoint.ts) = False := by
  have h : (resample (get_pair_data gapTicks) 60).map PairPoint.ts = [0, 120] := by
    rw [gapTicks_resample]
    rfl
  refine ⟨h, ?_⟩
  rw [h]
  apply eq_false
  intro hch
  rcases List.chain'_cons.mp hch with ⟨h120, _⟩
  omega

/-- C2: when a symbol's series holds two or more ticks at one timestamp
`t` with prices `p1, ..., pk`, the alignment's dedup step collapses them to
exactly one point at `t` whose price is the arithmetic mean
`(p1 + ... + pk) / k`. -/
theorem dedup_mean_law (df : List Tick) (sym : String) (t : ℕ)
    (h : 2 ≤ (pricesAt (symSeries df sym) t).length) :
    (dedupBranch (symSeries df sym)).filter (fun r => r.1 == t) =
      [(t, (pricesAt (symSeries df sym) t).sum /
        ((pricesAt (symSeries df sym) t).length : ℚ))] := by
  have hlen : (pricesAt (symSeries df sym) t).length =
      ((symSeries df sym).filter (fun r => r.1 == t)).length := by
    rw [pricesAt, List.length_map]
  have hdup : ¬ ((symSeries df sym).map Prod.fst).Nodup := by
    intro hnd
    have hcount := List.nodup_iff_count_le_one.mp hnd t
    rw [count_fst_eq_filter_length] at hcount
    omega
  have htmem : t ∈ (symSeries df sym).map Prod.fst := by
    have hne : (symSeries df sym).filter (fun r => r.1 == t) ≠ [] := by
      intro hnil
      rw [hlen, hnil] at h
      simp at h
    obtain ⟨r, hr⟩ := List.exists_mem_of_ne_nil _ hne
    rcases List.mem_filter.mp hr with ⟨hrs, hrt⟩
    rw [beq_iff_eq] at hrt
    exact hrt ▸ List.mem_map_of_mem Prod.fst hrs
  rw [dedupBranch, if_neg hdup, groupMean, List.filter_map]
  have hcomp : ((fun r : ℕ × ℚ => r.1 == t) ∘
      fun u => (u, mean (pricesAt (symSeries df sym) u))) = fun u => u == t := rfl
  rw [hcomp, filter_beq_singleton (nodup_sortedTimes _) (mem_sortedTimes.mpr htmem)]
  rw [List.map_cons, List.map_nil, mean]

/-- Witness for `dedup_mean_law`: two btcusdt ticks at timestamp 5 with
prices 1 and 3 collapse to the single point `(5, 2)`. -/
theorem dedup_mean_law_witness :
    (dedupBranch (symSeries
        [⟨5, "btcusdt", 1⟩, ⟨5, "btcusdt", 3⟩] "btcusdt")).filter
      (fun r => r.1 == 5) = [(5, 2)] := by
  have h := dedup_mean_law [⟨5, "btcusdt", 1⟩, ⟨5, "btcusdt", 3⟩] "btcusdt" 5
    (by norm_num +decide [pricesAt, symSeries, List.filter_cons])
  rw [h]
  norm_num +decide [pricesAt, symSeries, List.filter_cons]

/-- C6: every row of the aligned pair frame sits at or after both symbols'
first observations (so when one symbol starts later, no row precedes its
first tick), and both of its prices are the defined forward-fill values at
its timestamp. -/
theorem pair_no_leading_gap (df : List Tick) (pt : PairPoint)
    (h : pt ∈ get_pair_data df) :
    (∃ r ∈ symSeries df "btcusdt", r.1 ≤ pt.ts) ∧
    (∃ r ∈ symSeries df "ethusdt", r.1 ≤ pt.ts) ∧
    ffillAt (dedupBranch (symSeries df "btcusdt")) pt.ts = some pt.btc ∧
    ffillAt (dedupBranch (symSeries df "ethusdt")) pt.ts = some pt.eth := by
  rw [get_pair_data] at h
  split_ifs at h with hcond
  · exact absurd h (List.not_mem_nil pt)
  · rw [pairJoin] at h
    obtain ⟨t, _, hsome⟩ := List.mem_filterMap.mp h
    cases hb : ffillAt (dedupBranch (symSeries df "btcusdt")) t with
    | none =>
      rw [hb] at hsome
      cases he : ffillAt (dedupBranch (symSeries df "ethusdt")) t <;>
        simp [he] at hsome
    | some b =>
      cases he : ffillAt (dedupBranch (symSeries df "ethusdt")) t with
      | none =>
        rw [hb, he] at hsome
        simp at hsome
      | some e =>
        rw [hb, he] at hsome
        have hpt : pt = PairPoint.mk t b e := by
          simpa using hsome.symm
        subst hpt
        refine ⟨?_, ?_, hb, he⟩
        · obtain ⟨u, hu, hule⟩ := ffillAt_some_exists hb
          rw [mem_fst_dedupBranch] at hu
          obtain ⟨r, hr, hru⟩ := List.mem_map.mp hu
          exact ⟨r, hr, hru ▸ hule⟩
        · obtain ⟨u, hu, hule⟩ := ffillAt_some_exists he
          rw [mem_fst_dedupBranch] at hu
          obtain ⟨r, hr, hru⟩ := List.mem_map.mp hu
          exact ⟨r, hr, hru ▸ hule⟩

/-- Witness for `pair_no_leading_gap` at the first aligned row of a
snapshot where ethusdt reports at 0 but btcusdt only at 10: the row sits at
timestamp 10, not before btcusdt's first tick. -/
theorem pair_no_leading_gap_witness :
    (∃ r ∈ symSeries [⟨0, "ethusdt", 2⟩, ⟨10, "btcusdt", 1⟩,
        ⟨20, "ethusdt", 3⟩] "btcusdt", r.1 ≤ (PairPoint.mk 10 1 2).ts) ∧
    (∃ r ∈ symSeries [⟨0, "ethusdt", 2⟩, ⟨10, "btcusdt", 1⟩,
        ⟨20, "ethusdt", 3⟩] "ethusdt", r.1 ≤ (PairPoint.mk 10 1 2).ts) ∧
    ffillAt (dedupBranch (symSeries [⟨0, "ethusdt", 2⟩, ⟨10, "btcusdt", 1⟩,
        ⟨20, "ethusdt", 3⟩] "btcusdt")) (PairPoint.mk 10 1 2).ts = some 1 ∧
    ffillAt (dedupBranch (symSeries [⟨0, "ethusdt", 2⟩, ⟨10, "btcusdt", 1⟩,
        ⟨20, "ethusdt", 3⟩] "ethusdt")) (PairPoint.mk 10 1 2).ts = some 2 :=
  pair_no_leading_gap [⟨0, "ethusdt", 2⟩, ⟨10, "btcusdt", 1⟩, ⟨20, "ethusdt", 3⟩]
    (PairPoint.mk 10 1 2)
    (by norm_num +decide [get_pair_data, symSeries, dedupBranch, pairJoin,
      sortedTimes, distinctTimes, List.insertionSort, List.orderedInsert, ffillAt,
      maxTime, pricesAt, mean, List.filter_cons, List.filterMap_cons])

/-- C10: the alignment only ever looks at ticks whose symbol is exactly
`btcusdt` or `ethusdt` — filtering the snapshot down to those two symbols
does not change the pair frame — and a snapshot holding only other symbols
yields an empty pair frame. -/
theorem pair_only_tracked_symbols (df : List Tick) :
    get_pair_data df = get_pair_data
      (df.filter (fun t => t.symbol == "btcusdt" || t.symbol == "ethusdt")) ∧
    ((∀ t ∈ df, t.symbol ≠ "btcusdt" ∧ t.symbol ≠ "ethusdt") →
      get_pair_data df = []) := by
  have hfil : ∀ sym : String, sym = "btcusdt" ∨ sym = "ethusdt" →
      symSeries (df.filter
        (fun t => t.symbol == "btcusdt" || t.symbol == "ethusdt")) sym =
        symSeries df sym := by
    intro sym hsym
    rw [symSeries, symSeries, List.filter_filter]
    congr 1
    apply List.filter_congr
    intro a _
    by_cases hs : a.symbol = sym
    · rcases hsym with rfl | rfl <;> simp [hs]
    · simp [hs]
  constructor
  · rw [get_pair_data, get_pair_data, hfil "btcusdt" (Or.inl rfl),
      hfil "ethusdt" (Or.inr rfl)]
  · intro hall
    have hbtc : symSeries df "btcusdt" = [] := by
      rw [symSeries]
      have : df.filter (fun t => t.symbol == "btcusdt") = [] := by
        rw [List.filter_eq_nil_iff]
        intro a ha
        simp [(hall a ha).1]
      rw [this, List.map_nil]
    rw [get_pair_data, hbtc]
    simp [dedupBranch, groupMean, sortedTimes, distinctTimes]

/-- Witness for `pair_only_tracked_symbols`: a snapshot holding only a
solusdt tick yields an empty pair frame. -/
theorem pair_only_tracked_symbols_witness :
    get_pair_data [⟨0, "solusdt", 5⟩] = [] :=
  (pair_only_tracked_symbols [⟨0, "solusdt", 5⟩]).2
    (by intro t ht
        rcases List.mem_singleton.mp ht with rfl
        refine ⟨?_, ?_⟩ <;> decide)

end PairsApp
